import Mathlib

/-!
Verification of the playsound playback-session manager.

This file shallowly embeds the Go sources of the repository
(`play.go`, `controls.go`, `utils.go`, the monitor/fade code and the
registry/controller declarations) as executable Lean definitions and
proves the specification's testable properties about them.

Modelling conventions:
- Go `int` / `int64` values are modelled as `ℤ`; where a claim's range
  makes 64-bit overflow observable (the seconds↔bytes conversions, whose
  claim quantifies over every sample rate) the wrap-around of Go's
  two's-complement arithmetic is modelled explicitly by `wrap64`.
  `float64` values that are only compared and copied (volumes, fade
  arithmetic, which is exact here) are modelled as `ℚ`.
- The Go map `activeSounds : map[chan struct{}]soundController` is
  modelled as an association list keyed by an opaque handle `ℕ`
  (the identity of the `done` channel).
- Mutations the Go code performs through pointers (the shared
  `*oto.Player`, the tracker) are modelled by returning the updated
  state; commands issued to the player are additionally recorded as an
  event trace so that ordering claims can be stated.
- Lock-protected critical sections (`mu`, `activeMu`) execute atomically
  in the Go program; each such section is one atomic step here.
-/

namespace Playsound

/-- Playback parameters, from `play.go` (`PlayParams`): volume, loop flag,
fade-out flag, fade-in flag, start position in seconds. -/
structure PlayParams where
  Volume   : ℚ
  Loop     : Bool
  FadeOut  : Bool
  FadeIn   : Bool
  Position : ℤ
deriving DecidableEq, Repr

/-- Go's 64-bit two's-complement wrap-around: the representative of `x`
modulo `2^64` lying in `[-2^63, 2^63)`.  Every Go `int`/`int64` operation
(`*`, `/`, conversions; `int` is 64 bits wide on the supported targets)
yields this representative of its exact result. -/
def wrap64 (x : ℤ) : ℤ :=
  (x + 2 ^ 63) % 2 ^ 64 - 2 ^ 63

/-- `secondsToBytes` from `utils.go`: `int64(seconds) * int64(sampleRate) * 4`
(4 bytes = 2 channels × 2 bytes per int16 sample), each multiplication
wrapping in `int64`. -/
def secondsToBytes (seconds sampleRate : ℤ) : ℤ :=
  wrap64 (wrap64 (seconds * sampleRate) * 4)

/-- `bytesToSeconds` from `utils.go`: returns `0` when `sampleRate <= 0`,
otherwise `b / int64(sampleRate*4)` — the `int` product `sampleRate*4`
wraps, and the division is Go's truncating `int64` division (whose only
out-of-range result, `-2^63 / -1`, also wraps). -/
def bytesToSeconds (b : ℤ) (sampleRate : ℤ) : ℤ :=
  if sampleRate ≤ 0 then 0
  else wrap64 (Int.tdiv b (wrap64 (sampleRate * 4)))

/-- `validateParams` from `utils.go`: volume outside `(0,1]` is reset to `1.0`,
a negative position is reset to `0`. -/
def validateParams (p : PlayParams) : PlayParams :=
  let p := if p.Volume ≤ 0 ∨ 1 < p.Volume then { p with Volume := 1 } else p
  let p := if p.Position < 0 then { p with Position := 0 } else p
  p

/-! ## Player, controller and registry

The oto player is reduced to the state the embedded code observes and
mutates: volume, playing flag, a byte position and a total byte length
(the latter two back `player.Seek`). -/

/-- Observable state of one `*oto.Player`. -/
structure PlayerState where
  volume  : ℚ
  playing : Bool
  pos     : ℤ
  length  : ℤ
deriving DecidableEq, Repr

/-- `soundController` (registry value): cancel function (modelled as a
`cancelled` flag), the player, the start parameters, the sample rate, the
pause flag, the total byte count and the tracking stream's position. -/
structure SoundController where
  player     : PlayerState
  params     : PlayParams
  sampleRate : ℤ
  isPaused   : Bool
  totalBytes : ℤ
  trackerPos : ℤ
  cancelled  : Bool
deriving DecidableEq, Repr

/-- `activeSounds`: the map from `done`-channel handles to controllers. -/
abbrev Registry := List (ℕ × SoundController)

/-- `getControl` (registry lookup under `activeMu`). -/
def getControl (reg : Registry) (done : ℕ) : Option SoundController :=
  match reg.find? (fun e => e.1 == done) with
  | some e => some e.2
  | none   => none

/-- Go map assignment `activeSounds[done] = c`: overwrite the entry if the
key is present, insert it otherwise. -/
def setControl (reg : Registry) (done : ℕ) (c : SoundController) : Registry :=
  if (reg.find? (fun e => e.1 == done)).isSome then
    reg.map (fun e => if e.1 == done then (done, c) else e)
  else
    reg ++ [(done, c)]

/-- Commands the Control API issues to the player / tracker / registry,
recorded in order so that ordering properties can be stated. -/
inductive Ev where
  | setVolume (v : ℚ)
  | play
  | pausePlayer
  | seekTracker (off : ℤ)
  | seekPlayer (off : ℤ)
  | writePaused (b : Bool)
  | spawnFadeIn (target : ℚ)
  | fadeOutRamp
  | cancel
deriving DecidableEq, Repr

/-- Result of one Control API call: the Go-style return values (a result
value and an optional error), the registry after the call and the trace of
commands issued. -/
structure OpResult (α : Type) where
  val    : α
  err    : Option String
  reg    : Registry
  events : List Ev
deriving DecidableEq, Repr

/-! ## The Control API (`controls.go`, plus `GetDuration` from `utils.go`)

Each operation first performs the `getControl` lookup; on a missing handle
it returns the literal error message of the source and touches nothing. -/

/-- Final volume of a player after `fadeOut` runs on it: the ramp is a no-op
when the volume is already `≤ 0` and otherwise ends by pinning the volume to
exactly `0` (the step-by-step ramp itself is modelled below by `fadeOut`). -/
def fadeOutFinalVolume (v : ℚ) : ℚ :=
  if v ≤ 0 then v else 0

/-- `Stop`: look the handle up; call the session's `cancel` when found,
do nothing otherwise. The registry itself is not written. -/
def Stop (reg : Registry) (done : ℕ) : Registry × List Ev :=
  match getControl reg done with
  | some _ => (reg, [Ev.cancel])
  | none   => (reg, [])

/-- `SetVolume`: pass the volume straight through to the player. -/
def SetVolume (reg : Registry) (done : ℕ) (volume : ℚ) : OpResult Unit :=
  match getControl reg done with
  | none   => ⟨(), some "sound already finished or not found", reg, []⟩
  | some c =>
      ⟨(), none,
        setControl reg done { c with player := { c.player with volume := volume } },
        [Ev.setVolume volume]⟩

/-- `GetVolume`: read the player's current volume. -/
def GetVolume (reg : Registry) (done : ℕ) : OpResult ℚ :=
  match getControl reg done with
  | none   => ⟨0, some "sound already finished or not found", reg, []⟩
  | some c => ⟨c.player.volume, none, reg, []⟩

/-- `GetPosition`: read the tracker's byte position and convert it to
seconds. -/
def GetPosition (reg : Registry) (done : ℕ) : OpResult ℤ :=
  match getControl reg done with
  | none   => ⟨0, some "sound not found", reg, []⟩
  | some c => ⟨bytesToSeconds c.trackerPos c.sampleRate, none, reg, []⟩

/-- `GetDuration` (`utils.go`): remember the player's position, seek to the
end to learn the byte length, seek back, and convert the length to seconds. -/
def GetDuration (reg : Registry) (done : ℕ) : OpResult ℤ :=
  match getControl reg done with
  | none   => ⟨0, some "sound not found", reg, []⟩
  | some c =>
      -- Seek(0, Current) returns c.player.pos; Seek(0, End) returns the
      -- length; Seek(pos, Start) restores the position, so the player state
      -- in the registry is unchanged at the end of the call.
      ⟨bytesToSeconds c.player.length c.sampleRate, none, reg,
        [Ev.seekPlayer c.player.pos, Ev.seekPlayer c.player.length,
         Ev.seekPlayer c.player.pos]⟩

/-- `Seek`: convert seconds to a byte offset and seek the tracking stream
(`tracker.Seek(offset, io.SeekStart)`). -/
def Seek (reg : Registry) (done : ℕ) (seconds : ℤ) : OpResult Unit :=
  match getControl reg done with
  | none   => ⟨(), some "звук не найден", reg, []⟩
  | some c =>
      let off := secondsToBytes seconds c.sampleRate
      ⟨(), none,
        setControl reg done { c with trackerPos := off },
        [Ev.seekTracker off]⟩

/-- `Pause`: optionally run the fade-out ramp, pause the player, then set
the pause flag in the registry via `updateStatus(done, true)`. -/
def Pause (reg : Registry) (done : ℕ) : OpResult Unit :=
  match getControl reg done with
  | none   => ⟨(), some "sound not found", reg, []⟩
  | some c =>
      let fadeEvs := if c.params.FadeOut then [Ev.fadeOutRamp] else []
      let vol := if c.params.FadeOut then fadeOutFinalVolume c.player.volume
                 else c.player.volume
      ⟨(), none,
        setControl reg done
          { c with player := { c.player with volume := vol, playing := false },
                   isPaused := true },
        fadeEvs ++ [Ev.pausePlayer, Ev.writePaused true]⟩

/-- `PlayOn` (resume): set the player volume (0 when fading in, the target
otherwise), command `player.Play()`, clear the pause flag via
`updateStatus(done, false)`, and finally spawn the fade-in goroutine when
configured. The event order mirrors the statement order of the source. -/
def PlayOn (reg : Registry) (done : ℕ) : OpResult Unit :=
  match getControl reg done with
  | none   => ⟨(), some "sound not found", reg, []⟩
  | some c =>
      let sv := if c.params.FadeIn then 0 else c.params.Volume
      ⟨(), none,
        setControl reg done
          { c with player := { c.player with volume := sv, playing := true },
                   isPaused := false },
        [Ev.setVolume sv, Ev.play, Ev.writePaused false]
          ++ (if c.params.FadeIn then [Ev.spawnFadeIn c.params.Volume] else [])⟩

/-- First index of an event in a trace (length of the trace when absent). -/
def firstPos (e : Ev) : List Ev → ℕ
  | []      => 0
  | x :: xs => if x = e then 0 else firstPos e xs + 1

/-! ## The volume ramp engine (`fadeIn` / `fadeOut`)

Both ramps are modelled as pure functions returning the list of volumes
written by `player.SetVolume` (in order) together with the player's volume
when the function returns.  Sleeps have no observable effect here. -/

/-- The `for range 20` body of `fadeOut`: decrement by `step`, clamp at `0`,
write the volume, and break once it is `≤ 0`.  The fuel is the remaining
loop iterations (20 at the start). -/
def fadeOutLoop : ℕ → ℚ → ℚ → List ℚ
  | 0, _, _ => []
  | n + 1, cur, step =>
      let c1 := cur - step
      let c2 := if c1 < 0 then 0 else c1
      if c2 ≤ 0 then [c2] else c2 :: fadeOutLoop n c2 step

/-- `fadeOut`: read the current volume `v`; a no-op when `v ≤ 0`, otherwise
run 20 decrements of `v/20` and finally pin the volume to exactly `0`.
Returns (volumes written, final player volume). -/
def fadeOut (v : ℚ) : List ℚ × ℚ :=
  if v ≤ 0 then ([], v)
  else (fadeOutLoop 20 v (v / 20) ++ [0], 0)

/-- The `fadeIn` loop: `for v := 0.0; v <= target; v += step`, aborting
(without the final pin) when the player's volume exceeds `v + step`, writing
`v` otherwise; after the loop the volume is pinned to exactly `target`.
`pvol` is the player's current volume.  The fuel bounds the iteration count;
`fadeIn` below passes enough fuel for the loop to run to completion. -/
def fadeInAux (target step : ℚ) : ℕ → ℚ → ℚ → List ℚ × ℚ
  | 0, _, pvol => ([], pvol)
  | fuel + 1, v, pvol =>
      if v ≤ target then
        if v + step < pvol then ([], pvol)
        else
          let r := fadeInAux target step fuel (v + step) v
          (v :: r.1, r.2)
      else ([target], target)

/-- `fadeIn`: ramp from `v = 0` in fixed increments of `0.02` up to
`target`, starting from player volume `pvol`.  The fuel
`⌈target/0.02⌉ + 2` strictly dominates the number of loop entries. -/
def fadeIn (pvol target : ℚ) : List ℚ × ℚ :=
  fadeInAux target (2/100) ((⌈target / (2/100)⌉).toNat + 2) 0 pvol

/-! ## The playback monitor (`monitorPlayback`)

One poll tick of the monitor goroutine: read the registry entry; exit when
it is gone; when the player is not playing and the session is not paused,
either restart (loop mode, seek succeeding) or exit; then run the
`select`, exiting on cancellation.  Every exit path runs the deferred
cleanup: delete the registry entry, close the byte source, close `done`. -/

/-- What one tick observes besides the registry: the oto player's
`IsPlaying()`, whether the session context has been cancelled, and whether
the loop-restart `stream.Seek(0, io.SeekStart)` would succeed. -/
structure TickEnv where
  isPlaying : Bool
  ctxDone   : Bool
  seekOk    : Bool
deriving DecidableEq, Repr

/-- How a tick ends. -/
inductive TickResult where
  | cleanup       -- `return`: deferred delete/close/close runs
  | cancelCleanup -- `ctx.Done()` branch: fade-out/pause, then cleanup
  | looped        -- loop restart performed, polling continues
  | waited        -- `time.After` branch, polling continues
deriving DecidableEq, Repr

/-- The state of one session as the monitor and registry see it. -/
structure SessionView where
  inRegistry   : Bool
  isPaused     : Bool
  doneClosed   : Bool
  closerClosed : Bool
deriving DecidableEq, Repr

/-- One iteration of the monitor's `for` loop, following the branch
structure of `monitorPlayback`. -/
def monitorTick (loop : Bool) (present isPaused : Bool) (e : TickEnv) : TickResult :=
  if !present then .cleanup
  else if !e.isPlaying && !isPaused then
    if loop then
      if !e.seekOk then .cleanup
      else if e.ctxDone then .cancelCleanup
      else .looped
    else .cleanup
  else if e.ctxDone then .cancelCleanup
  else .waited

/-- Effect of one tick on the session state: the cleanup paths remove the
session from the registry and close both the `done` channel and the byte
source; the others leave the state untouched. -/
def monitorStep (loop : Bool) (st : SessionView) (e : TickEnv) : SessionView :=
  match monitorTick loop st.inRegistry st.isPaused e with
  | .cleanup | .cancelCleanup =>
      { st with inRegistry := false, doneClosed := true, closerClosed := true }
  | .looped | .waited => st

/-- A run of consecutive monitor ticks. -/
def monitorRun (loop : Bool) (st : SessionView) (es : List TickEnv) : SessionView :=
  es.foldl (monitorStep loop) st

/-! ## Root-context epochs (`StopAll` and session creation)

`rootCtx` is replaced by a fresh `context.WithCancel(context.Background())`
on every `StopAll`; successive root contexts are numbered by an epoch
counter.  A session stores the epoch of the root context its own context
was derived from (`context.WithCancel(rootCtx)` under `mu`); cancelling an
epoch cancels every context derived from it.  `initEngine`'s `once.Do`
creates epoch 0 and is modelled by the `ready` flag (before it,
`rootCancel` is nil and `StopAll` does nothing). -/

/-- One playback session as seen by the cancellation machinery. -/
structure SessionRec where
  handle        : ℕ
  parentEpoch   : ℕ
  selfCancelled : Bool
deriving DecidableEq, Repr

/-- Global cancellation state: whether `initEngine` ran, the epoch of the
current `rootCtx`, the epochs whose `rootCancel` has been fired, the
sessions ever started, and a fresh-handle counter. -/
structure SysState where
  ready           : Bool
  currentEpoch    : ℕ
  cancelledEpochs : List ℕ
  sessions        : List SessionRec
  nextHandle      : ℕ
deriving DecidableEq, Repr

/-- Events touching the cancellation state. -/
inductive SysEv where
  | start        -- `PlaySoundWithParams` (successful): initEngine, then derive from rootCtx under `mu`
  | stopAll      -- `StopAll`
  | stop (h : ℕ) -- `Stop(done)`: fire that session's own cancel
deriving DecidableEq, Repr

/-- Initial state: before `initEngine`. -/
def sysInit : SysState := ⟨false, 0, [], [], 0⟩

/-- Atomic steps.  `start`: run `initEngine` (first time only), then — in
the `mu`-protected section of `PlaySoundWithParams` — derive the session
context from the current root epoch.  `stopAll`: under `mu`, if the root
exists, cancel the current epoch and replace it by a fresh one.
`stop h`: cancel session `h`'s own context. -/
def sysStep (s : SysState) : SysEv → SysState
  | .start =>
      let s := if s.ready then s else { s with ready := true }
      { s with sessions := s.sessions ++ [⟨s.nextHandle, s.currentEpoch, false⟩],
               nextHandle := s.nextHandle + 1 }
  | .stopAll =>
      if s.ready then
        { s with cancelledEpochs := s.currentEpoch :: s.cancelledEpochs,
                 currentEpoch := s.currentEpoch + 1 }
      else s
  | .stop h =>
      { s with sessions :=
          s.sessions.map fun r =>
            if r.handle = h then { r with selfCancelled := true } else r }

/-- Run a list of events. -/
def sysRun (s : SysState) (evs : List SysEv) : SysState :=
  evs.foldl sysStep s

/-- A state reachable from the initial state. -/
def SysReachable (s : SysState) : Prop :=
  ∃ evs, sysRun sysInit evs = s

/-- A session's context is cancelled iff its parent epoch was cancelled or
its own cancel was fired (Go context semantics: cancelling a parent
cancels every derived context). -/
def sessionCancelled (s : SysState) (r : SessionRec) : Prop :=
  r.parentEpoch ∈ s.cancelledEpochs ∨ r.selfCancelled = true

/-! ## Starting a session (`PlaySoundWithParams`)

The collaborators (`getReadSeeker`, `getDecoder`, `initEngine`, the
player's start-offset seek) are oracles: the environment records whether
each of them succeeds, together with the decoded stream's sample rate and
byte length. -/

/-- Outcomes of the collaborators consulted by `PlaySoundWithParams`. -/
structure StartEnv where
  rsOk         : Bool -- `getReadSeeker` succeeds (a byte source and closer exist)
  decodeOk     : Bool -- `getDecoder` succeeds
  engineOk     : Bool -- `initEngine` succeeds
  seekOk       : Bool -- `player.Seek(offset, io.SeekStart)` succeeds
  sampleRate   : ℤ
  streamLength : ℤ    -- `Length()` when the stream reports one, else 0
deriving DecidableEq, Repr

/-- What `PlaySoundWithParams` produced: the returned handle or error, the
registry afterwards, and the fate of the byte-source closer. -/
structure StartResult where
  done           : Option ℕ
  err            : Option String
  reg            : Registry
  closerObtained : Bool
  closerClosed   : Bool
deriving DecidableEq, Repr

/-- `PlaySoundWithParams` (`play.go`): validate the parameters, resolve the
byte source, the decoder and the engine (closing the byte source on the
latter two failures), create the player, apply the start volume, seek to
the start offset when `Position > 0` (returning the seek error as-is), then
register the session, start playback and hand the byte source to the
monitor. -/
def PlaySoundWithParams (env : StartEnv) (reg : Registry) (newHandle : ℕ)
    (params0 : PlayParams) : StartResult :=
  let params := validateParams params0
  if ¬env.rsOk then
    ⟨none, some "source error", reg, false, false⟩
  else if ¬env.decodeOk then
    ⟨none, some "decode error", reg, true, true⟩     -- closer.Close()
  else if ¬env.engineOk then
    ⟨none, some "engine error", reg, true, true⟩     -- closer.Close()
  else if 0 < params.Position ∧ ¬env.seekOk then
    ⟨none, some "seek error", reg, true, false⟩      -- `return nil, err`: closer left open
  else
    let startVol := if params.FadeIn then 0 else params.Volume
    let startPos := if 0 < params.Position
                    then secondsToBytes params.Position env.sampleRate else 0
    let ctrl : SoundController :=
      { player := ⟨startVol, true, startPos, env.streamLength⟩,
        params := params,
        sampleRate := env.sampleRate,
        isPaused := false,
        totalBytes := env.streamLength,
        trackerPos := 0,
        cancelled := false }
    ⟨some newHandle, none, setControl reg newHandle ctrl, true, false⟩

/-! ## Concrete fixtures used by counterexamples and witnesses -/

/-- A registered, paused session with fade-in and fade-out disabled. -/
def resumeDemoCtrl : SoundController :=
  { player := ⟨0, false, 0, 1000⟩,
    params := ⟨1, false, false, false, 0⟩,
    sampleRate := 44100, isPaused := true,
    totalBytes := 1000, trackerPos := 0, cancelled := false }

/-- A registry holding exactly `resumeDemoCtrl` under handle `0`. -/
def resumeDemoReg : Registry := [(0, resumeDemoCtrl)]

/-- Collaborator outcomes where the source, decoder and engine succeed but
the player's start-offset seek fails. -/
def seekFailEnv : StartEnv := ⟨true, true, true, false, 44100, 0⟩

/-- Parameters requesting playback from second 1 (so the start-offset seek
runs). -/
def seekFailParams : PlayParams := ⟨1, false, false, false, 1⟩

/-! ## Claims -/

/-- A value already in the `int64` range is its own wrapped
representative. -/
theorem wrap64_eq_self (x : ℤ) (h1 : -(2 ^ 63) ≤ x) (h2 : x < 2 ^ 63) :
    wrap64 x = x := by
  unfold wrap64
  omega

/-- Counterexample to claim C7 as stated: the round-trip does not hold for
*every* non-negative `s` and positive sample rate `r`.  At `s = 5` and
`r = 2^61` the Go `int64` products wrap — `5 * 2^61 * 4 ≡ -2^63` and
`sampleRate * 4 ≡ -2^63 (mod 2^64)` — and the round-trip returns `1`,
not `5`. -/
theorem secondsBytes_roundTrip_false :
    (0 : ℤ) ≤ 5 ∧ (0 : ℤ) < 2 ^ 61 ∧
    bytesToSeconds (secondsToBytes 5 (2 ^ 61)) (2 ^ 61) = 1 ∧
    ¬ bytesToSeconds (secondsToBytes 5 (2 ^ 61)) (2 ^ 61) = 5 := by
  refine ⟨by decide, by decide, by decide, by decide⟩

/-- Claim C7 (amended): the seconds-to-bytes conversion round-trips exactly
whenever the products stay inside `int64` — for every non-negative `s` and
positive sample rate `r` with `r * 4 < 2^63` and `s * r * 4 < 2^63`
(i.e. absent 64-bit overflow), `bytesToSeconds (secondsToBytes s r) r = s`;
in particular `secondsToBytes 5 44100 = 882000` and
`bytesToSeconds 882000 44100 = 5`. -/
theorem secondsBytes_roundTrip (s r : ℤ) (hs : 0 ≤ s) (hr : 0 < r)
    (hr4 : r * 4 < 2 ^ 63) (hsr4 : s * r * 4 < 2 ^ 63) :
    bytesToSeconds (secondsToBytes s r) r = s ∧
    secondsToBytes 5 44100 = 882000 ∧
    bytesToSeconds 882000 44100 = 5 := by
  refine ⟨?_, by decide, by decide⟩
  have h0 : (0 : ℤ) ≤ s * r := mul_nonneg hs (le_of_lt hr)
  have h04 : (0 : ℤ) ≤ s * r * 4 := by linarith
  have hsr : s * r < 2 ^ 63 := by linarith
  have hsle : s ≤ s * r := by
    have := mul_le_mul_of_nonneg_left (show (1 : ℤ) ≤ r by omega) hs
    linarith [this]
  have w1 : wrap64 (s * r) = s * r := wrap64_eq_self _ (by linarith) hsr
  have w2 : wrap64 (s * r * 4) = s * r * 4 := wrap64_eq_self _ (by linarith) hsr4
  have w3 : wrap64 (r * 4) = r * 4 := wrap64_eq_self _ (by linarith) hr4
  unfold bytesToSeconds secondsToBytes
  rw [if_neg (by omega), w1, w2, w3]
  rw [show s * r * 4 = s * (r * 4) by ring]
  rw [Int.mul_tdiv_cancel s (by omega)]
  exact wrap64_eq_self s (by linarith) (by linarith)

/-- Witness for the amended C7 at `s = 5`, `r = 44100`. -/
theorem secondsBytes_roundTrip_witness :
    (0:ℤ) ≤ 5 ∧ (0:ℤ) < 44100 ∧
    (44100 : ℤ) * 4 < 2 ^ 63 ∧ (5 : ℤ) * 44100 * 4 < 2 ^ 63 ∧
    (bytesToSeconds (secondsToBytes 5 44100) 44100 = 5 ∧
     secondsToBytes 5 44100 = 882000 ∧
     bytesToSeconds 882000 44100 = 5) :=
  ⟨by decide, by decide, by decide, by decide,
    secondsBytes_roundTrip 5 44100 (by decide) (by decide) (by decide) (by decide)⟩

/-- Claim C8: `validateParams` resets a volume outside `(0,1]` to `1.0` and
leaves it unchanged otherwise, resets a negative position to `0` and leaves
it unchanged otherwise; in particular `validate(0) = 1.0`,
`validate(0.5) = 0.5`, `validate(5.0) = 1.0`. -/
theorem validateParams_clamps :
    (∀ p : PlayParams,
        ((validateParams p).Volume
            = if p.Volume ≤ 0 ∨ 1 < p.Volume then 1 else p.Volume) ∧
        ((validateParams p).Position
            = if p.Position < 0 then 0 else p.Position)) ∧
    (validateParams ⟨0, false, false, false, 0⟩).Volume = 1 ∧
    (validateParams ⟨1/2, false, false, false, 0⟩).Volume = 1/2 ∧
    (validateParams ⟨5, false, false, false, 0⟩).Volume = 1 := by
  refine ⟨fun p => ?_, by norm_num [validateParams], by norm_num [validateParams],
    by norm_num [validateParams]⟩
  simp only [validateParams]
  constructor <;> split_ifs <;> simp_all

/-- Claim C10: `bytesToSeconds` never divides: for every `b` and every
`sampleRate ≤ 0` it returns `0`, so `GetPosition` and `GetDuration` on a
session whose stored sample rate is not positive return `0` without error
instead of dividing by `sampleRate * 4`. -/
theorem bytesToSeconds_total (b r : ℤ) (hr : r ≤ 0) :
    bytesToSeconds b r = 0 ∧
    (∀ (reg : Registry) (done : ℕ) (c : SoundController),
        getControl reg done = some c → c.sampleRate = r →
        (GetPosition reg done).err = none ∧ (GetPosition reg done).val = 0 ∧
        (GetDuration reg done).err = none ∧ (GetDuration reg done).val = 0) := by
  have hb : ∀ x : ℤ, bytesToSeconds x r = 0 := fun x => by
    unfold bytesToSeconds; rw [if_pos hr]
  refine ⟨hb b, fun reg done c hc hsr => ?_⟩
  simp [GetPosition, GetDuration, hc, hsr, hb]

/-- Witness for C10 at `b = 7`, `r = 0`. -/
theorem bytesToSeconds_total_witness :
    (0:ℤ) ≤ 0 ∧
    (bytesToSeconds 7 0 = 0 ∧
     (∀ (reg : Registry) (done : ℕ) (c : SoundController),
        getControl reg done = some c → c.sampleRate = 0 →
        (GetPosition reg done).err = none ∧ (GetPosition reg done).val = 0 ∧
        (GetDuration reg done).err = none ∧ (GetDuration reg done).val = 0)) :=
  ⟨by decide, bytesToSeconds_total 7 0 (by decide)⟩

/-- Claim C3: every Control API operation on a handle missing from the
registry reports the source's "not found" error with zero result values,
leaves the registry untouched and issues no command to any player;
`Stop` simply returns without firing any cancellation. -/
theorem unknownHandle_noop (reg : Registry) (done : ℕ) (v : ℚ) (secs : ℤ)
    (h : getControl reg done = none) :
    SetVolume reg done v = ⟨(), some "sound already finished or not found", reg, []⟩ ∧
    GetVolume reg done = ⟨0, some "sound already finished or not found", reg, []⟩ ∧
    GetPosition reg done = ⟨0, some "sound not found", reg, []⟩ ∧
    GetDuration reg done = ⟨0, some "sound not found", reg, []⟩ ∧
    Seek reg done secs = ⟨(), some "звук не найден", reg, []⟩ ∧
    Pause reg done = ⟨(), some "sound not found", reg, []⟩ ∧
    PlayOn reg done = ⟨(), some "sound not found", reg, []⟩ ∧
    Stop reg done = (reg, []) := by
  simp [SetVolume, GetVolume, GetPosition, GetDuration, Seek, Pause, PlayOn, Stop, h]

/-- Witness for C3 on the empty registry. -/
theorem unknownHandle_noop_witness :
    getControl [] 3 = none ∧
    (SetVolume [] 3 1 = ⟨(), some "sound already finished or not found", [], []⟩ ∧
     GetVolume [] 3 = ⟨0, some "sound already finished or not found", [], []⟩ ∧
     GetPosition [] 3 = ⟨0, some "sound not found", [], []⟩ ∧
     GetDuration [] 3 = ⟨0, some "sound not found", [], []⟩ ∧
     Seek [] 3 2 = ⟨(), some "звук не найден", [], []⟩ ∧
     Pause [] 3 = ⟨(), some "sound not found", [], []⟩ ∧
     PlayOn [] 3 = ⟨(), some "sound not found", [], []⟩ ∧
     Stop [] 3 = ([], [])) :=
  ⟨rfl, unknownHandle_noop [] 3 1 2 rfl⟩

/-- Counterexample to claim C6 as stated: on a registered paused session,
`PlayOn` does not perform the registry write clearing `isPaused` before or
at the same time as `player.Play()` — in the issued command sequence the
write strictly follows the `Play` command. -/
theorem playOn_clearBeforePlay_false :
    ¬ (firstPos (Ev.writePaused false) (PlayOn resumeDemoReg 0).events ≤
       firstPos Ev.play (PlayOn resumeDemoReg 0).events) := by decide

/-- Claim C6 (amended): in the sequence of effects performed by `PlayOn`
on a registered session, the call to `player.Play()` strictly precedes the
registry write setting `isPaused = false`, and that write precedes the
launch of the fade-in goroutine when fade-in is configured — so a monitor
poll interleaved between `Play` and the write still observes
`isPaused = true` and does not terminate the session. -/
theorem playOn_playThenClear (reg : Registry) (done : ℕ) (c : SoundController)
    (h : getControl reg done = some c) :
    firstPos Ev.play (PlayOn reg done).events <
      firstPos (Ev.writePaused false) (PlayOn reg done).events ∧
    (c.params.FadeIn = true →
      firstPos (Ev.writePaused false) (PlayOn reg done).events <
        firstPos (Ev.spawnFadeIn c.params.Volume) (PlayOn reg done).events) := by
  simp only [PlayOn, h]
  by_cases hf : c.params.FadeIn <;> simp [hf, firstPos]

/-- Witness for the amended C6 on `resumeDemoReg`. -/
theorem playOn_playThenClear_witness :
    getControl resumeDemoReg 0 = some resumeDemoCtrl ∧
    (firstPos Ev.play (PlayOn resumeDemoReg 0).events <
       firstPos (Ev.writePaused false) (PlayOn resumeDemoReg 0).events ∧
     (resumeDemoCtrl.params.FadeIn = true →
       firstPos (Ev.writePaused false) (PlayOn resumeDemoReg 0).events <
         firstPos (Ev.spawnFadeIn resumeDemoCtrl.params.Volume)
           (PlayOn resumeDemoReg 0).events)) :=
  ⟨by decide, playOn_playThenClear resumeDemoReg 0 resumeDemoCtrl (by decide)⟩

/-- Claim C4, evaluated at the failing input: when the decoder and the
engine succeed but the start-offset seek fails (with `Position > 0`),
`PlaySoundWithParams` returns the error and adds no session, but — against
the claim — it returns without closing the byte-source closer it obtained
from `getReadSeeker`, leaking it. -/
theorem startSeekFailure_leaksCloser :
    (PlaySoundWithParams seekFailEnv [] 0 seekFailParams).err = some "seek error" ∧
    (PlaySoundWithParams seekFailEnv [] 0 seekFailParams).done = none ∧
    (PlaySoundWithParams seekFailEnv [] 0 seekFailParams).reg = [] ∧
    (PlaySoundWithParams seekFailEnv [] 0 seekFailParams).closerObtained = true ∧
    (PlaySoundWithParams seekFailEnv [] 0 seekFailParams).closerClosed = false := by
  decide

/-- Claim C1: while a session's `isPaused` flag is set and its context has
not been cancelled, a monitor poll tick — whatever the player's
`IsPlaying()` reports, in particular "not playing" — leaves the session
state untouched: it is not removed from the registry, `done` is not
closed and the byte source is not closed.  This holds across any number of
consecutive ticks; the cancellation branch of the `select` is the one
deliberate exception (`Stop` / `StopAll` terminate even a paused session),
hence the `ctxDone = false` hypothesis. -/
theorem pause_suppressesCompletion (loop : Bool) (st : SessionView)
    (es : List TickEnv)
    (hreg : st.inRegistry = true) (hp : st.isPaused = true)
    (hc : ∀ e ∈ es, e.ctxDone = false) :
    monitorRun loop st es = st := by
  induction es with
  | nil => rfl
  | cons e tl ih =>
      have he : e.ctxDone = false := hc e (List.mem_cons_self e tl)
      have hstep : monitorStep loop st e = st := by
        unfold monitorStep monitorTick
        rw [hreg, hp, he]
        simp
      show monitorRun loop (monitorStep loop st e) tl = st
      rw [hstep]
      exact ih (fun x hx => hc x (List.mem_cons_of_mem e hx))

/-- Witness for C1: a registered paused session survives two not-playing
ticks unchanged. -/
theorem pause_suppressesCompletion_witness :
    (⟨true, true, false, false⟩ : SessionView).inRegistry = true ∧
    (⟨true, true, false, false⟩ : SessionView).isPaused = true ∧
    (∀ e ∈ [(⟨false, false, true⟩ : TickEnv), ⟨false, false, false⟩], e.ctxDone = false) ∧
    monitorRun false ⟨true, true, false, false⟩
      [⟨false, false, true⟩, ⟨false, false, false⟩] = ⟨true, true, false, false⟩ :=
  ⟨rfl, rfl, by decide,
    pause_suppressesCompletion false ⟨true, true, false, false⟩
      [⟨false, false, true⟩, ⟨false, false, false⟩] rfl rfl (by decide)⟩

/-- The `fadeOut` loop on an exact multiple of the step: starting from
`cur = n * step` with `step > 0`, the loop writes exactly `n` volumes,
descending by `step` from `(n-1) * step` down to `0`. -/
theorem fadeOutLoop_exact (n : ℕ) (step : ℚ) (hs : 0 < step) :
    fadeOutLoop n ((n : ℚ) * step) step
      = (List.range n).map fun (k : ℕ) => ((n : ℚ) - ((k : ℚ) + 1)) * step := by
  induction n with
  | zero => simp [fadeOutLoop]
  | succ m ih =>
      have hcur : ((m + 1 : ℕ) : ℚ) * step - step = (m : ℚ) * step := by
        push_cast; ring
      have hnonneg : ¬ ((m : ℚ) * step < 0) := by
        have h : (0 : ℚ) ≤ (m : ℚ) * step := by positivity
        exact not_lt.mpr h
      rcases Nat.eq_zero_or_pos m with hm | hm
      · subst hm
        simp [fadeOutLoop, List.range_succ]
      · have hpos : 0 < (m : ℚ) * step := by
          have hm' : (0 : ℚ) < (m : ℚ) := by exact_mod_cast hm
          positivity
        simp only [fadeOutLoop, hcur, hnonneg, if_false, not_le.mpr hpos, ite_false]
        rw [ih]
        rw [List.range_succ_eq_map]
        simp only [List.map_cons, List.map_map]
        congr 1
        · push_cast; ring
        · refine List.map_congr_left fun k _ => ?_
          simp only [Function.comp_apply]
          push_cast; ring

/-- Claim C5: for every starting volume `v` in `(0,1]`, `fadeOut` performs
exactly 20 ramp writes with step `v/20` — the values
`v - (k+1) * (v/20)` for `k = 0..19`, the last of which is already `0` —
followed by the final pin of the volume to exactly `0`, and the player ends
at volume exactly `0`; for every starting volume `≤ 0` it is a no-op that
writes nothing. -/
theorem fadeOut_spec (v : ℚ) (h0 : 0 < v) (_h1 : v ≤ 1) :
    (fadeOut v).1 = ((List.range 20).map fun (k : ℕ) => v - ((k : ℚ) + 1) * (v / 20)) ++ [0] ∧
    (fadeOut v).1.length = 21 ∧
    (fadeOut v).2 = 0 ∧
    (∀ w : ℚ, w ≤ 0 → fadeOut w = ([], w)) := by
  have h20 : ((20 : ℕ) : ℚ) * (v / 20) = v := by push_cast; ring
  have hstep : 0 < v / 20 := by positivity
  have hloop : fadeOutLoop 20 v (v / 20)
      = (List.range 20).map fun (k : ℕ) => v - ((k : ℚ) + 1) * (v / 20) := by
    calc fadeOutLoop 20 v (v / 20)
        = fadeOutLoop 20 (((20 : ℕ) : ℚ) * (v / 20)) (v / 20) := by rw [h20]
      _ = (List.range 20).map fun (k : ℕ) => (((20 : ℕ) : ℚ) - ((k : ℚ) + 1)) * (v / 20) :=
            fadeOutLoop_exact 20 (v / 20) hstep
      _ = (List.range 20).map fun (k : ℕ) => v - ((k : ℚ) + 1) * (v / 20) := by
            refine List.map_congr_left fun k _ => ?_
            rw [sub_mul, h20]
  have hv : ¬ (v ≤ 0) := not_le.mpr h0
  refine ⟨?_, ?_, ?_, fun w hw => ?_⟩
  · simp [fadeOut, hv, hloop]
  · simp [fadeOut, hv, hloop]
  · simp [fadeOut, hv]
  · simp [fadeOut, hw]

/-- Witness for C5 at `v = 1`. -/
theorem fadeOut_spec_witness :
    (0 : ℚ) < 1 ∧ (1 : ℚ) ≤ 1 ∧
    ((fadeOut 1).1 = ((List.range 20).map fun (k : ℕ) => 1 - ((k : ℚ) + 1) * (1 / 20)) ++ [0] ∧
     (fadeOut 1).1.length = 21 ∧
     (fadeOut 1).2 = 0 ∧
     (∀ w : ℚ, w ≤ 0 → fadeOut w = ([], w))) :=
  ⟨by norm_num, by norm_num, fadeOut_spec 1 (by norm_num) (by norm_num)⟩

/-- The `fadeIn` loop, run without external interference (`pvol ≤ v`, which
the loop re-establishes after every write) and with enough fuel
(`target < v + fuel * step`): it writes `v, v + step, v + 2*step, …` while
those stay `≤ target` and then pins the volume to exactly `target`. -/
theorem fadeInAux_exact (target step : ℚ) (hs : 0 < step) :
    ∀ (fuel : ℕ) (v pvol : ℚ), pvol ≤ v → target < v + (fuel : ℚ) * step →
      ∃ m : ℕ,
        fadeInAux target step (fuel + 1) v pvol
          = ((List.range m).map (fun (k : ℕ) => v + (k : ℚ) * step) ++ [target], target)
        ∧ (∀ k : ℕ, k < m → v + (k : ℚ) * step ≤ target)
        ∧ target < v + (m : ℚ) * step := by
  intro fuel
  induction fuel with
  | zero =>
      intro v pvol hpv hlt
      have hv : ¬ (v ≤ target) := by push_cast at hlt; exact not_le.mpr (by linarith)
      refine ⟨0, ?_, fun k hk => absurd hk (by omega), ?_⟩
      · simp [fadeInAux, hv]
      · push_cast at hlt ⊢; linarith
  | succ n ih =>
      intro v pvol hpv hlt
      by_cases hv : v ≤ target
      · have hguard : ¬ (v + step < pvol) := not_lt.mpr (by linarith)
        obtain ⟨m', h1, h2, h3⟩ := ih (v + step) v (by linarith) (by push_cast at hlt ⊢; linarith)
        refine ⟨m' + 1, ?_, ?_, ?_⟩
        · show fadeInAux target step (n + 1 + 1) v pvol = _
          rw [fadeInAux]
          rw [if_pos hv, if_neg hguard, h1]
          rw [List.range_succ_eq_map]
          simp only [List.map_cons, List.map_map]
          refine Prod.ext ?_ rfl
          show v :: _ ++ [target] = (v + (0 : ℚ) * step) :: _ ++ [target]
          congr 2
          · ring
          · refine List.map_congr_left fun k _ => ?_
            simp only [Function.comp_apply]
            push_cast; ring
        · intro k hk
          match k with
          | 0 => simpa using hv
          | j + 1 =>
              have := h2 j (by omega)
              push_cast at this ⊢; linarith
        · push_cast at h3 ⊢; linarith
      · refine ⟨0, ?_, fun k hk => absurd hk (by omega), ?_⟩
        · show fadeInAux target step (n + 1 + 1) v pvol = _
          rw [fadeInAux, if_neg hv]
          simp
        · push_cast
          simpa using not_le.mp hv

/-- Claim C9: for every target in `(0,1]` and a player whose volume starts
at `0` (as the resume/start paths arrange before spawning the ramp),
`fadeIn` writes the ascending volumes `0, 0.02, 0.04, …` while they do not
exceed the target — so the first write is `0` and consecutive writes differ
by the fixed increment `0.02` — and deterministically ends by setting the
volume to exactly `target`; and at any loop state whose player volume has
been raised past the next step (`v + 0.02 < pvol`), the ramp aborts at once
without writing anything. -/
theorem fadeIn_spec (target : ℚ) (h0 : 0 < target) (_h1 : target ≤ 1) :
    (∃ m : ℕ, 0 < m ∧
        (fadeIn 0 target).1
          = ((List.range m).map (fun (k : ℕ) => (k : ℚ) * (2/100)) ++ [target])
        ∧ (∀ k : ℕ, k < m → (k : ℚ) * (2/100) ≤ target)
        ∧ target < (m : ℚ) * (2/100)) ∧
    (fadeIn 0 target).2 = target ∧
    (fadeIn 0 target).1.head? = some 0 ∧
    (∀ (fuel : ℕ) (v pvol : ℚ), v ≤ target → v + 2/100 < pvol →
        fadeInAux target (2/100) (fuel + 1) v pvol = ([], pvol)) := by
  have hs : (0 : ℚ) < 2/100 := by norm_num
  have hceil : target / (2/100) ≤ ((⌈target / (2/100)⌉.toNat : ℕ) : ℚ) := by
    have h1 : target / (2/100) ≤ ((⌈target / (2/100)⌉ : ℤ) : ℚ) := Int.le_ceil _
    have h2 : (0 : ℤ) ≤ ⌈target / (2/100)⌉ := by
      have : (0 : ℚ) < target / (2/100) := by positivity
      exact_mod_cast le_of_lt (Int.ceil_pos.mpr this)
    rw [show (((⌈target / (2/100)⌉.toNat : ℕ) : ℚ)) = ((⌈target / (2/100)⌉ : ℤ) : ℚ) by
      exact_mod_cast congrArg (fun z : ℤ => (z : ℚ)) (Int.toNat_of_nonneg h2)]
    exact h1
  have hfuel : target < 0 + (((⌈target / (2/100)⌉.toNat + 1 : ℕ)) : ℚ) * (2/100) := by
    have key : target = target / (2/100) * (2/100) := by field_simp
    have hmul : target / (2/100) * (2/100)
        ≤ ((⌈target / (2/100)⌉.toNat : ℕ) : ℚ) * (2/100) :=
      mul_le_mul_of_nonneg_right hceil (by norm_num)
    push_cast
    push_cast at hmul
    linarith [key, hmul]
  obtain ⟨m, h1, h2, h3⟩ :=
    fadeInAux_exact target (2/100) hs (⌈target / (2/100)⌉.toNat + 1) 0 0 le_rfl hfuel
  have hrun : fadeIn 0 target
      = ((List.range m).map (fun (k : ℕ) => (k : ℚ) * (2/100)) ++ [target], target) := by
    show fadeInAux target (2/100) (⌈target / (2/100)⌉.toNat + 2) 0 0 = _
    rw [show (⌈target / (2/100)⌉.toNat + 2) = (⌈target / (2/100)⌉.toNat + 1) + 1 by omega, h1]
    refine Prod.ext ?_ rfl
    show _ ++ [target] = _ ++ [target]
    congr 1
    exact List.map_congr_left fun k _ => by ring
  have hm : 0 < m := by
    rcases Nat.eq_zero_or_pos m with h | h
    · exfalso; rw [h] at h3; push_cast at h3; linarith
    · exact h
  refine ⟨⟨m, hm, ?_, ?_, ?_⟩, ?_, ?_, ?_⟩
  · rw [hrun]
  · intro k hk; have := h2 k hk; simpa using this
  · simpa using h3
  · rw [hrun]
  · rw [hrun]
    match m, hm with
    | m' + 1, _ =>
        rw [List.range_succ_eq_map]
        simp
  · intro fuel v pvol hv hpv
    rw [fadeInAux, if_pos hv, if_pos hpv]

/-- Witness for C9 at `target = 1/10`. -/
theorem fadeIn_spec_witness :
    (0 : ℚ) < 1/10 ∧ (1 : ℚ)/10 ≤ 1 ∧
    ((∃ m : ℕ, 0 < m ∧
        (fadeIn 0 (1/10)).1
          = ((List.range m).map (fun (k : ℕ) => (k : ℚ) * (2/100)) ++ [1/10])
        ∧ (∀ k : ℕ, k < m → (k : ℚ) * (2/100) ≤ 1/10)
        ∧ (1 : ℚ)/10 < (m : ℚ) * (2/100)) ∧
     (fadeIn 0 (1/10)).2 = 1/10 ∧
     (fadeIn 0 (1/10)).1.head? = some 0 ∧
     (∀ (fuel : ℕ) (v pvol : ℚ), v ≤ 1/10 → v + 2/100 < pvol →
        fadeInAux (1/10) (2/100) (fuel + 1) v pvol = ([], pvol))) :=
  ⟨by norm_num, by norm_num, fadeIn_spec (1/10) (by norm_num) (by norm_num)⟩

/-- Cancellation-state invariant: an epoch is cancelled exactly when it is
older than the current root epoch, and every session's parent epoch is at
most the current one. -/
def sysInv (s : SysState) : Prop :=
  (∀ e : ℕ, e ∈ s.cancelledEpochs ↔ e < s.currentEpoch) ∧
  (∀ r ∈ s.sessions, r.parentEpoch ≤ s.currentEpoch)

theorem sysInv_init : sysInv sysInit := by
  constructor
  · intro e; simp [sysInit]
  · intro r hr; simp [sysInit] at hr

theorem sysInv_step (s : SysState) (e : SysEv) (h : sysInv s) :
    sysInv (sysStep s e) := by
  obtain ⟨h1, h2⟩ := h
  cases e with
  | start =>
      constructor
      · intro x
        simp only [sysStep]
        split_ifs <;> exact h1 x
      · intro r hr
        simp only [sysStep] at hr ⊢
        split_ifs at hr ⊢ <;>
          · simp only [List.mem_append, List.mem_singleton] at hr
            rcases hr with hr | hr
            · exact h2 r hr
            · subst hr; exact le_rfl
  | stopAll =>
      by_cases hready : s.ready
      · constructor
        · intro x
          simp only [sysStep, if_pos hready, List.mem_cons]
          rw [h1 x]
          omega
        · intro r hr
          simp only [sysStep, if_pos hready] at hr ⊢
          exact le_trans (h2 r hr) (by omega)
      · simpa [sysStep, if_neg hready] using ⟨h1, h2⟩
  | stop hdl =>
      constructor
      · exact h1
      · intro r hr
        simp only [sysStep, List.mem_map] at hr
        obtain ⟨r0, hr0, hmap⟩ := hr
        have : r.parentEpoch = r0.parentEpoch := by
          by_cases hh : r0.handle = hdl <;> simp [hh] at hmap <;> rw [← hmap]
        rw [this]
        exact h2 r0 hr0

theorem sysInv_run (s : SysState) (evs : List SysEv) (h : sysInv s) :
    sysInv (sysRun s evs) := by
  induction evs generalizing s with
  | nil => exact h
  | cons e tl ih => exact ih (sysStep s e) (sysInv_step s e h)

theorem sysInv_reachable (s : SysState) (h : SysReachable s) : sysInv s := by
  obtain ⟨evs, rfl⟩ := h
  exact sysInv_run sysInit evs sysInv_init

theorem sessionEpochs_stop_map (s : SysState) (hdl : ℕ) :
    (sysStep s (.stop hdl)).sessions.map SessionRec.parentEpoch
      = s.sessions.map SessionRec.parentEpoch := by
  simp only [sysStep, List.map_map]
  refine List.map_congr_left fun r _ => ?_
  by_cases hh : r.handle = hdl <;> simp [hh, Function.comp]

/-- One step only appends sessions (up to in-place flag updates): the list
of parent epochs is extended, and every appended epoch is the current
one. -/
theorem sessionEpochs_step (s : SysState) (e : SysEv) :
    ∃ t : List ℕ,
      (sysStep s e).sessions.map SessionRec.parentEpoch
        = s.sessions.map SessionRec.parentEpoch ++ t
      ∧ ∀ x ∈ t, x = s.currentEpoch := by
  cases e with
  | start =>
      refine ⟨[s.currentEpoch], ?_, by simp⟩
      simp only [sysStep]
      split_ifs <;> simp
  | stopAll =>
      refine ⟨[], ?_, by simp⟩
      simp only [sysStep]
      split_ifs <;> simp
  | stop hdl =>
      exact ⟨[], by rw [sessionEpochs_stop_map]; simp, by simp⟩

theorem currentEpoch_mono (s : SysState) (e : SysEv) :
    s.currentEpoch ≤ (sysStep s e).currentEpoch := by
  cases e with
  | start =>
      simp only [sysStep]
      split_ifs <;> exact le_rfl
  | stopAll =>
      simp only [sysStep]
      split_ifs
      · exact Nat.le_succ _
      · exact le_rfl
  | stop hdl => exact le_rfl

/-- Over any run, the parent-epoch list is extended and every session added
during the run has a parent epoch at least the starting root epoch. -/
theorem sessionEpochs_run (s : SysState) (evs : List SysEv) :
    ∃ t : List ℕ,
      (sysRun s evs).sessions.map SessionRec.parentEpoch
        = s.sessions.map SessionRec.parentEpoch ++ t
      ∧ ∀ x ∈ t, s.currentEpoch ≤ x := by
  induction evs generalizing s with
  | nil => exact ⟨[], by simp [sysRun], by simp⟩
  | cons e tl ih =>
      obtain ⟨t1, ht1, ht1v⟩ := sessionEpochs_step s e
      obtain ⟨t2, ht2, ht2v⟩ := ih (sysStep s e)
      refine ⟨t1 ++ t2, ?_, ?_⟩
      · show (sysRun (sysStep s e) tl).sessions.map SessionRec.parentEpoch = _
        rw [ht2, ht1, List.append_assoc]
      · intro x hx
        rcases List.mem_append.mp hx with hx | hx
        · exact le_of_eq (ht1v x hx).symm
        · exact le_trans (currentEpoch_mono s e) (ht2v x hx)

/-- Claim C2: stop-all isolation.  For a reachable state with a live root
context, `StopAll` cancels every session present at the moment of the call
(their parent epoch is among the cancelled ones afterwards), while every
session started after the call — in any continuation of the run — derives
from a strictly newer root epoch than the one current at the call, and in
particular is not among the epochs that call cancelled.  Session creation
reads the root under the same `mu` as `StopAll`'s swap, which is what makes
each step here atomic. -/
theorem stopAll_isolation (s : SysState) (hs : SysReachable s)
    (hready : s.ready = true) :
    (∀ r ∈ s.sessions, sessionCancelled (sysStep s .stopAll) r) ∧
    (∀ tr : List SysEv,
       ∀ r ∈ (sysRun (sysStep s .stopAll) tr).sessions.drop s.sessions.length,
         s.currentEpoch < r.parentEpoch ∧
         r.parentEpoch ∉ (sysStep s .stopAll).cancelledEpochs) := by
  obtain ⟨hinv1, hinv2⟩ := sysInv_reachable s hs
  have hstep : sysStep s .stopAll
      = { s with cancelledEpochs := s.currentEpoch :: s.cancelledEpochs,
                 currentEpoch := s.currentEpoch + 1 } := by
    simp [sysStep, hready]
  constructor
  · intro r hr
    left
    rw [hstep]
    simp only [List.mem_cons]
    rcases lt_or_eq_of_le (hinv2 r hr) with h | h
    · exact Or.inr ((hinv1 r.parentEpoch).mpr h)
    · exact Or.inl h
  · intro tr r hr
    obtain ⟨t, ht, htv⟩ := sessionEpochs_run (sysStep s .stopAll) tr
    have hlen : (sysStep s .stopAll).sessions = s.sessions := by rw [hstep]
    have hmem : r.parentEpoch ∈ t := by
      have hdropmap : r.parentEpoch
          ∈ ((sysRun (sysStep s .stopAll) tr).sessions.drop s.sessions.length).map
              SessionRec.parentEpoch :=
        List.mem_map_of_mem SessionRec.parentEpoch hr
      rw [List.map_drop] at hdropmap
      rw [ht, hlen] at hdropmap
      rw [List.drop_append_of_le_length (by simp)] at hdropmap
      rcases List.mem_append.mp hdropmap with h | h
      · exfalso
        have hnil : List.drop s.sessions.length
            (List.map SessionRec.parentEpoch s.sessions) = [] := by simp
        rw [hnil] at h
        exact absurd h (List.not_mem_nil _)
      · exact h
    have hge : (sysStep s .stopAll).currentEpoch ≤ r.parentEpoch := htv _ hmem
    rw [hstep] at hge
    simp only at hge
    refine ⟨by omega, ?_⟩
    rw [hstep]
    simp only [List.mem_cons]
    push_neg
    refine ⟨by omega, fun hc => ?_⟩
    have := (hinv1 r.parentEpoch).mp hc
    omega

/-- Witness for C2 at the state reached by starting one session. -/
theorem stopAll_isolation_witness :
    SysReachable ⟨true, 0, [], [⟨0, 0, false⟩], 1⟩ ∧
    (⟨true, 0, [], [⟨0, 0, false⟩], 1⟩ : SysState).ready = true ∧
    ((∀ r ∈ (⟨true, 0, [], [⟨0, 0, false⟩], 1⟩ : SysState).sessions,
        sessionCancelled (sysStep ⟨true, 0, [], [⟨0, 0, false⟩], 1⟩ .stopAll) r) ∧
     (∀ tr : List SysEv,
       ∀ r ∈ (sysRun (sysStep ⟨true, 0, [], [⟨0, 0, false⟩], 1⟩ .stopAll) tr).sessions.drop
               (⟨true, 0, [], [⟨0, 0, false⟩], 1⟩ : SysState).sessions.length,
         (⟨true, 0, [], [⟨0, 0, false⟩], 1⟩ : SysState).currentEpoch < r.parentEpoch ∧
         r.parentEpoch ∉ (sysStep ⟨true, 0, [], [⟨0, 0, false⟩], 1⟩ .stopAll).cancelledEpochs)) :=
  ⟨⟨[SysEv.start], by decide⟩, rfl,
    stopAll_isolation ⟨true, 0, [], [⟨0, 0, false⟩], 1⟩ ⟨[SysEv.start], by decide⟩ rfl⟩

end Playsound
